import Mathlib

/-!
Verification of the Multilingual_Text_to_Speech repository against its
natural-language specification.

The development shallowly embeds the parts of the Python source that the
checked properties are about:

* `src/dataset/dataset.py` — manifest parsing in `TextToSpeechDataset.__init__`,
  `load_spectrogram`, `create_meta_file`'s effect on the global `Params` object,
  and the batch collator `TextToSpeechCollate.__call__`;
* `src/modules/tacotron2.py` — the control flow of `Decoder._decode`
  (step counting, the inference-only stop countdown, truncation) and the
  in-place `unsqueeze_` that `Tacotron.inference` applies to its input.

Python strings are modelled as lists of characters, numpy/torch arrays as
(nested) lists, Python ints as `Int`/`Nat`, real-valued tensor entries as `ℚ`.
Fallible code (exceptions such as `IndexError` or `AssertionError`) is
modelled with `Option`.
-/

namespace TTS

/-- Python strings modelled as lists of characters. -/
abbrev PyStr := List Char

/-- Translation of Python's `s.split('|')` (`str.split` with an explicit
separator): every occurrence of the separator splits, empty fields are kept,
`"".split('|') == [""]`. -/
def splitPipe (s : PyStr) : List PyStr :=
  s.foldr
    (fun c acc =>
      if c = '|' then [] :: acc
      else
        match acc with
        | [] => [[c]]
        | t :: rest => (c :: t) :: rest)
    [[]]

/-- Effective start index of the Python slice `x[s:]` on a sequence of length
`n`: a negative `s` counts from the end (clamped at 0), a non-negative `s` is
clamped at `n`. -/
def pySliceStart (s : Int) (n : Nat) : Nat :=
  if 0 ≤ s then min s.toNat n else ((n : Int) + s).toNat

/-! ## Hyperparameters (src/params/params.py)

The fields of the global `Params` attribute bag that the embedded code
reads.  `languages` is the accepted-language list, `stop_frames` the
inference grace-frame count (default 5). -/

structure HParams where
  num_mels : Nat
  num_fft : Nat
  languages : List PyStr
  multi_speaker : Bool
  multi_language : Bool
  predict_linear : Bool
  stop_frames_hp : Int
  deriving DecidableEq

/-! ## Manifest parsing (src/dataset/dataset.py, TextToSpeechDataset.__init__)

`__init__` reads the meta-file line by line, splits each line (with its last
character dropped) on `'|'`, indexes tokens 0..7 to build an item dict, and
keeps the item when its language is accepted.  Indexing a missing token
raises `IndexError`, modelled by `Option.none`. -/

structure ManifestRecord where
  recId : PyStr
  speaker : PyStr
  language : PyStr
  audioPath : PyStr
  spectrogramPath : PyStr
  linearSpectrogramPath : PyStr
  text : PyStr
  phonemes : PyStr
  deriving DecidableEq

/-- Build the item dict from the split tokens: `line_tokens[0]` .. `line_tokens[7]`.
`none` models the `IndexError` raised when an index is out of range; tokens
past index 7 are never read. -/
def parseTokens (tokens : List PyStr) : Option ManifestRecord := do
  let i ← tokens.get? 0
  let s ← tokens.get? 1
  let l ← tokens.get? 2
  let a ← tokens.get? 3
  let m ← tokens.get? 4
  let n ← tokens.get? 5
  let t ← tokens.get? 6
  let p ← tokens.get? 7
  pure ⟨i, s, l, a, m, n, t, p⟩

/-- One manifest line: `line[:-1].split('|')` then token indexing. -/
def parseManifestLine (line : PyStr) : Option ManifestRecord :=
  parseTokens (splitPipe line.dropLast)

/-- The `__init__` read loop over the meta-file lines: parse each line (a
parse failure aborts the whole construction, as the Python exception does),
then append the record when `item['language'] in hp.languages`. -/
def readManifest (languages : List PyStr) (lines : List PyStr) :
    Option (List ManifestRecord) :=
  lines.foldlM
    (fun acc line => do
      let r ← parseManifestLine line
      pure (if r.language ∈ languages then acc ++ [r] else acc))
    []

/-- The speaker-name column of the accepted records, in manifest order
(`line_tokens[1]` of each kept line). -/
def speakersOf (records : List ManifestRecord) : List PyStr :=
  records.map (·.speaker)

/-- The source computes `unique_speakers = list(set(unique_speakers))`.
A Python `set` of strings iterates in a hash-dependent order that the
language does not specify, so the resulting list is modelled as a parameter:
`isSetEnum enum records` says that `enum` is one of the lists Python may
produce — duplicate-free, with exactly the speaker names of the accepted
records as elements. -/
def isSetEnum (enum : List PyStr) (records : List ManifestRecord) : Prop :=
  enum.Nodup ∧ (∀ s ∈ enum, s ∈ speakersOf records) ∧
    (∀ s ∈ speakersOf records, s ∈ enum)

/-- `self.items[idx]['speaker'] = unique_speakers.index(...)`: each record's
speaker id is its name's index in the set enumeration. -/
def assignSpeakerIds (enum : List PyStr) (records : List ManifestRecord) :
    List Nat :=
  records.map (fun r => enum.indexOf r.speaker)

/-- Modelled from the spec's words, for comparison with the source (claim C5):
the enumeration of speaker names "by the order of first occurrence while
iterating the filtered record list top-to-bottom". -/
def specFirstOccurrenceEnum (records : List ManifestRecord) : List PyStr :=
  (speakersOf records).foldl (fun acc s => if s ∈ acc then acc else acc ++ [s]) []

/-- Speaker ids as the spec describes them: index in the first-occurrence
enumeration. -/
def specFirstOccurrenceIds (records : List ManifestRecord) : List Nat :=
  assignSpeakerIds (specFirstOccurrenceEnum records) records

/-! ## load_spectrogram (src/dataset/dataset.py:125-138)

A spectrogram is a rectangular array `[frequency_bins, frames]`, modelled as
a list of rows.  The function receives the loaded/computed spectrogram
(`np.load` of the cache file, or `audio.spectrogram` — both external), checks
`np.shape(spectrogram)[0]` against the configured expectation, and optionally
applies the external `audio.normalize_spectrogram`, modelled by the parameter
`normFn`.  `none` models the `AssertionError`. -/

abbrev Spectrogram := List (List ℚ)

def load_spectrogram (hp : HParams) (normFn : Spectrogram → Spectrogram)
    (spectrogram : Spectrogram) (normalize isMel : Bool) : Option Spectrogram :=
  let expectedDimension := if isMel then hp.num_mels else hp.num_fft / 2 + 1
  if spectrogram.length = expectedDimension then
    some (if normalize then normFn spectrogram else spectrogram)
  else
    none

/-! ## create_meta_file and the global Params state
(src/dataset/dataset.py:180-222)

`create_meta_file` saves `hp.sample_rate` and `hp.num_fft`, overwrites both
with its arguments, runs its body (external loaders / phonemization /
spectrogram writing, which read but do not write `Params`), and restores the
two saved values.  Its effect on the `Params` state is modelled by threading
an explicit state record through the same sequence of reads and writes. -/

structure ParamsState where
  sample_rate : Nat
  num_fft : Nat
  num_mels : Nat
  stop_frames_hp : Int
  languages : List PyStr
  batch_size : Nat
  cache_spectrograms : Bool
  use_phonemes : Bool
  deriving DecidableEq

/-- The `Params` state seen by the body of `create_meta_file`, after
`hp.sample_rate = audio_sample_rate` and `hp.num_fft = num_fft_freqs`. -/
def createMetaFileMidState (hp : ParamsState) (audioSampleRate numFftFreqs : Nat) :
    ParamsState :=
  ⟨audioSampleRate, numFftFreqs, hp.num_mels, hp.stop_frames_hp, hp.languages,
    hp.batch_size, hp.cache_spectrograms, hp.use_phonemes⟩

/-- The `Params` state after a completed call of `create_meta_file`:
save `sample_rate`, overwrite it, save `num_fft`, overwrite it, run the body
on the mid state, then restore both saved values. -/
def createMetaFileFinalState (hp : ParamsState) (audioSampleRate numFftFreqs : Nat) :
    ParamsState :=
  let old_sample_rate := hp.sample_rate
  let hp1 := createMetaFileMidState hp audioSampleRate numFftFreqs
  let old_fft_freqs := hp.num_fft
  let hp2 : ParamsState := ⟨old_sample_rate, hp1.num_fft, hp1.num_mels,
    hp1.stop_frames_hp, hp1.languages, hp1.batch_size, hp1.cache_spectrograms,
    hp1.use_phonemes⟩
  ⟨hp2.sample_rate, old_fft_freqs, hp2.num_mels, hp2.stop_frames_hp,
    hp2.languages, hp2.batch_size, hp2.cache_spectrograms, hp2.use_phonemes⟩

/-! ## Tacotron.inference input mutation (src/modules/tacotron2.py:399-422)

`Tacotron.inference` begins with `text.unsqueeze_(0)`, an in-place reshape
of the caller's tensor; the rest of the method only reads `text`.  A torch
tensor is modelled by its shape and flat contents. -/

structure TorchTensor where
  shape : List Nat
  data : List ℚ
  deriving DecidableEq

/-- In-place `t.unsqueeze_(dim)`: insert a size-1 dimension at `dim`,
contents unchanged. -/
def unsqueezeInPlace (t : TorchTensor) (dim : Nat) : TorchTensor :=
  ⟨t.shape.take dim ++ 1 :: t.shape.drop dim, t.data⟩

/-- The effect of `Tacotron.inference` on its caller's `text` tensor:
exactly the in-place `text.unsqueeze_(0)`. -/
def tacotronInferenceTextEffect (text : TorchTensor) : TorchTensor :=
  unsqueezeInPlace text 0

/-! ## Batch collator (src/dataset/dataset.py, TextToSpeechCollate.__call__)

A batch element is the `__getitem__` tuple
`(speaker, language, phonemes_or_text, mel_spec, lin_spec)`; the
spectrograms are rectangular arrays `[bins, frames]`. -/

structure BatchItem where
  speaker : Int
  language : Int
  utter : List Int
  mel : Spectrogram
  lin : Spectrogram
  deriving DecidableEq

instance : Inhabited BatchItem := ⟨⟨0, 0, [], [], []⟩⟩

/-- `len(a[0])` / `a[0].size`: the frame count of an example's mel
spectrogram (the length of its first row; the source indexes `a[0]`, which
presupposes `num_mels ≥ 1` rows). -/
def frameCount (item : BatchItem) : Nat :=
  (item.mel.headD []).length

/-- Writing a length-`n` sequence into the prefix of a zero row of width
`width` (`tensor[i, :n] = data`); positions `n ≤ j < width` keep the zero
fill.  The source's slice assignment requires `n ≤ width`, which holds for
every row the collator writes. -/
def padRow (width : Nat) (zero : α) (u : List α) : List α :=
  u ++ List.replicate (width - u.length) zero

/-- One row of the stop-token target tensor:
`stop_tokens[i] = 0` everywhere, then `stop_tokens[i, k-1:] = 1` where `k`
is that row's true frame count.  The slice start `k-1` is a Python index:
for `k = 0` it is `-1`, which addresses the **last** column. -/
def stopRow (max_frames : Nat) (k : Nat) : List ℚ :=
  (List.range max_frames).map
    (fun j => if pySliceStart ((k : Int) - 1) max_frames ≤ j then (1 : ℚ) else 0)

/-- The tuple returned by `TextToSpeechCollate.__call__`. -/
structure CollateOutput where
  sorted_utterance_lengths : List Nat
  utterances : List (List Int)
  mel_spectrograms : List Spectrogram
  lin_spectrograms : Option (List Spectrogram)
  stop_tokens : List (List ℚ)
  spectrogram_lengths : List Nat
  speakers : Option (List Int)
  languagesOut : Option (List Int)
  deriving DecidableEq

/-- The index permutation produced by
`torch.sort(utterance_lengths, descending=True)`: torch guarantees that
`sorted_idxs` is a permutation of `0..batch_size-1` and that the lengths read
along it are descending; with the default `stable=False` the relative order
of equal lengths is **not** specified, so the permutation is a parameter
constrained by exactly the documented guarantee. -/
def validSortedIdxs (lens : List Nat) (sorted_idxs : List Nat) : Prop :=
  List.Perm sorted_idxs (List.range lens.length) ∧
  List.Sorted (· ≥ ·) (sorted_idxs.map (fun idx => lens.getD idx 0))

/-- `TextToSpeechCollate.__call__` (src/dataset/dataset.py:227-264), given
the sort permutation `sorted_idxs` returned by `torch.sort`.  The source
preallocates zero tensors and fills row `i` from `batch[sorted_idxs[i]]`;
each row is written exactly once, so rows are modelled constructively. -/
def collate (hp : HParams) (batch : List BatchItem) (sorted_idxs : List Nat) :
    CollateOutput :=
  let utterance_lengths := batch.map (fun item => item.utter.length)
  let frame_counts := batch.map frameCount
  let max_frames := frame_counts.foldl max 0
  let sorted_utterance_lengths :=
    sorted_idxs.map (fun idx => utterance_lengths.getD idx 0)
  let spectrogram_lengths := sorted_idxs.map (fun idx => frame_counts.getD idx 0)
  let maxUtt := sorted_utterance_lengths.headD 0
  let utterances := sorted_idxs.map
    (fun idx => padRow maxUtt 0 (batch.getD idx default).utter)
  let mel_spectrograms := sorted_idxs.map
    (fun idx => (List.range hp.num_mels).map
      (fun r => padRow max_frames 0 ((batch.getD idx default).mel.getD r [])))
  let lin_spectrograms :=
    if hp.predict_linear then
      some (sorted_idxs.map
        (fun idx => (List.range (hp.num_fft / 2 + 1)).map
          (fun r => padRow max_frames 0 ((batch.getD idx default).lin.getD r []))))
    else none
  let stop_tokens := sorted_idxs.map
    (fun idx => stopRow max_frames (frameCount (batch.getD idx default)))
  let speakers :=
    if hp.multi_speaker then
      some (sorted_idxs.map (fun idx => (batch.getD idx default).speaker))
    else none
  let languagesOut :=
    if hp.multi_language then
      some (sorted_idxs.map (fun idx => (batch.getD idx default).language))
    else none
  ⟨sorted_utterance_lengths, utterances, mel_spectrograms, lin_spectrograms,
    stop_tokens, spectrogram_lengths, speakers, languagesOut⟩

/-! ## Decoder decode loop (src/modules/tacotron2.py, Decoder._decode)

The per-step neural computation (prenet, teacher-forcing input selection,
attention LSTM, attention, generator LSTM, frame/stop projections) maps the
step index `i` and the decoder state to a successor state and the step's
products `(frame, stop_logits, weights)`; it is abstracted into the
parameter `stepF` over an abstract state type `S` (which carries the RNN
hidden/cell states, the attention accumulator, the previous frame, the
teacher-forcing draws and the target).  The loop control — step counting,
the inference-only stop countdown, and the truncation of all three outputs
on early return — is translated literally. -/

structure DecodeResult (α β : Type) where
  spectrogram : List α
  stopTokens : List ℚ
  alignments : List β
  deriving DecidableEq

/-- `torch.sigmoid(stop_logits).ge(0.5)`: the sigmoid is strictly increasing
with `sigmoid 0 = 0.5`, so the threshold test on the probability is exactly
the test `0 ≤ x` on the logit, which is how it is decided here. -/
def sigmoidGeHalf (x : ℚ) : Bool :=
  decide (0 ≤ x)

/-- The decoding loop of `Decoder._decode` (tacotron2.py:180-211).
`rem` is the number of iterations left (`max_frames - i`), `i` the current
step index, `stop_frames` the grace countdown (initially `-1`), and the three
accumulators hold the outputs produced so far (the source writes slot `i` of
preallocated tensors and truncates to `[:, :i+1]` on early return, which is
the accumulated prefix). -/
def decodeLoop {S α β : Type} (stepF : Nat → S → S × α × ℚ × β)
    (inference : Bool) (grace : Int) :
    Nat → Nat → S → Int → List α → List ℚ → List β → DecodeResult α β
  | 0, _, _, _, spec, stops, aligns => ⟨spec, stops, aligns⟩
  | rem + 1, i, s, stop_frames, spec, stops, aligns =>
    if inference && sigmoidGeHalf (stepF i s).2.2.1 then
      if stop_frames = -1 then
        decodeLoop stepF inference grace rem (i + 1) (stepF i s).1 grace
          (spec ++ [(stepF i s).2.1]) (stops ++ [(stepF i s).2.2.1])
          (aligns ++ [(stepF i s).2.2.2])
      else if stop_frames - 1 = 0 then
        ⟨spec ++ [(stepF i s).2.1], stops ++ [(stepF i s).2.2.1],
          aligns ++ [(stepF i s).2.2.2]⟩
      else
        decodeLoop stepF inference grace rem (i + 1) (stepF i s).1
          (stop_frames - 1) (spec ++ [(stepF i s).2.1])
          (stops ++ [(stepF i s).2.2.1]) (aligns ++ [(stepF i s).2.2.2])
    else
      decodeLoop stepF inference grace rem (i + 1) (stepF i s).1 stop_frames
        (spec ++ [(stepF i s).2.1]) (stops ++ [(stepF i s).2.2.1])
        (aligns ++ [(stepF i s).2.2.2])

/-- `Decoder._decode`: `inference = target is None`,
`max_frames = self._max_frames if inference else target.size(2)`; the loop
starts at step 0 with `stop_frames = -1` and empty output.  `targetFrames`
is `target.size(2)` of the optional target (its values are read by `stepF`). -/
def Decoder_decode {S α β : Type} (stepF : Nat → S → S × α × ℚ × β) (s0 : S)
    (maxOutputLength : Nat) (grace : Int) (targetFrames : Option Nat) :
    DecodeResult α β :=
  let inference := targetFrames.isNone
  let max_frames :=
    match targetFrames with
    | none => maxOutputLength
    | some tf => tf
  decodeLoop stepF inference grace max_frames 0 s0 (-1) [] [] []

/-- The state stream of an (untruncated) decode run: the state the loop
holds when it reaches step `n`. -/
def decodeTrace {S α β : Type} (stepF : Nat → S → S × α × ℚ × β) (s0 : S) :
    Nat → S
  | 0 => s0
  | n + 1 => (stepF n (decodeTrace stepF s0 n)).1

/-- Whether the stop logit produced at step `n` of the run passes the
sigmoid threshold. -/
def traceStop {S α β : Type} (stepF : Nat → S → S × α × ℚ × β) (s0 : S)
    (n : Nat) : Bool :=
  sigmoidGeHalf (stepF n (decodeTrace stepF s0 n)).2.2.1

/-! ## Concrete instances used to exercise the definitions -/

/-- A two-mel-band configuration with two well-formed batch items
(utterance lengths 2 and 1, frame counts 1 and 3). -/
def hpEx : HParams := ⟨2, 4, [['e', 'n']], false, false, false, 5⟩

def batchEx : List BatchItem :=
  [⟨0, 0, [1, 2], [[1], [2]], []⟩, ⟨1, 0, [3], [[1, 2, 3], [4, 5, 6]], []⟩]

/-- A one-mel-band configuration. -/
def hpOneMel : HParams := ⟨1, 4, [['e', 'n']], false, false, false, 5⟩

/-- A batch whose second item has a zero-frame mel spectrogram
(shape `[1, 0]`). -/
def batchZeroFrames : List BatchItem :=
  [⟨0, 0, [1], [[1, 2]], []⟩, ⟨1, 0, [2], [[]], []⟩]

/-- A batch with two items of equal utterance length but distinct symbol
content. -/
def batchTie : List BatchItem :=
  [⟨0, 0, [7], [[1]], []⟩, ⟨1, 0, [9], [[2]], []⟩]

/-- A two-line manifest whose speakers appear in the order B, A. -/
def manifestLinesBA : List PyStr :=
  ["0|B|en|a|m|l|t|p\n".toList, "1|A|en|a|m|l|t|p\n".toList]

/-- The records `readManifest` produces from `manifestLinesBA`. -/
def recsBA : List ManifestRecord :=
  [⟨"0".toList, "B".toList, "en".toList, "a".toList, "m".toList, "l".toList,
      "t".toList, "p".toList⟩,
    ⟨"1".toList, "A".toList, "en".toList, "a".toList, "m".toList, "l".toList,
      "t".toList, "p".toList⟩]

/-! ## Helper lemmas about lists -/

theorem getD_map_lt (f : α → β) (l : List α) {i : Nat} (hi : i < l.length)
    (d : β) (d' : α) : (l.map f).getD i d = f (l.getD i d') := by
  rw [List.getD_eq_getElem (l.map f) d (by simpa using hi),
    List.getD_eq_getElem l d' hi, List.getElem_map]

theorem getD_mem' {l : List α} {i : Nat} (h : i < l.length) (d : α) :
    l.getD i d ∈ l := by
  rw [List.getD_eq_getElem l d h]
  exact List.getElem_mem h

theorem map_getD_range (l : List α) (d : α) :
    (List.range l.length).map (fun i => l.getD i d) = l := by
  apply List.ext_getElem
  · simp
  · intro i h1 h2
    rw [List.getElem_map, List.getElem_range, List.getD_eq_getElem l d h2]

theorem map_getD_range_comp (l : List α) (d : α) (h : α → β) :
    (List.range l.length).map (fun i => h (l.getD i d)) = l.map h := by
  have hcong := congrArg (List.map h) (map_getD_range l d)
  rw [List.map_map] at hcong
  simpa [Function.comp] using hcong

theorem foldl_max_init_le (l : List Nat) : ∀ init : Nat, init ≤ l.foldl max init := by
  induction l with
  | nil => intro init; simp
  | cons a t ih =>
    intro init
    exact le_trans (Nat.le_max_left init a) (ih (max init a))

theorem le_foldl_max_of_mem {l : List Nat} {x : Nat} (hx : x ∈ l) :
    ∀ init : Nat, x ≤ l.foldl max init := by
  induction l with
  | nil => cases hx
  | cons a t ih =>
    intro init
    rcases List.mem_cons.mp hx with h | h
    · subst h
      exact le_trans (Nat.le_max_right init x) (foldl_max_init_le t (max init x))
    · exact ih h (max init a)

theorem foldl_max_le {m : Nat} :
    ∀ (l : List Nat) (init : Nat), init ≤ m → (∀ x ∈ l, x ≤ m) →
      l.foldl max init ≤ m := by
  intro l
  induction l with
  | nil => intro init h _; simpa using h
  | cons a t ih =>
    intro init h hall
    simp only [List.foldl_cons]
    exact ih (max init a) (max_le h (hall a (List.mem_cons_self a t)))
      (fun x hx => hall x (List.mem_cons_of_mem a hx))

theorem sortedIdxs_map_perm {lens sorted_idxs : List Nat}
    (hperm : List.Perm sorted_idxs (List.range lens.length)) :
    List.Perm (sorted_idxs.map (fun idx => lens.getD idx 0)) lens := by
  have h := hperm.map (fun idx => lens.getD idx 0)
  rwa [map_getD_range] at h

theorem sortedIdxs_getD_lt {lens sorted_idxs : List Nat}
    (hperm : List.Perm sorted_idxs (List.range lens.length)) {i : Nat}
    (hi : i < sorted_idxs.length) : sorted_idxs.getD i 0 < lens.length := by
  have hmem : sorted_idxs.getD i 0 ∈ sorted_idxs := getD_mem' hi 0
  exact List.mem_range.mp (hperm.mem_iff.mp hmem)

theorem headD_sorted_eq_foldl_max {lens sorted_idxs : List Nat}
    (hne : lens ≠ [])
    (hperm : List.Perm sorted_idxs (List.range lens.length))
    (hsorted : List.Sorted (· ≥ ·) (sorted_idxs.map fun idx => lens.getD idx 0)) :
    (sorted_idxs.map fun idx => lens.getD idx 0).headD 0 = lens.foldl max 0 := by
  have hp := sortedIdxs_map_perm hperm
  rcases hmap : sorted_idxs.map (fun idx => lens.getD idx 0) with _ | ⟨h0, tail⟩
  · exfalso
    apply hne
    have := hp.length_eq
    rw [hmap] at this
    exact List.length_eq_zero.mp this.symm
  · rw [hmap] at hp hsorted
    simp only [List.headD_cons]
    have hmem : h0 ∈ lens := hp.mem_iff.mp (List.mem_cons_self h0 tail)
    apply le_antisymm
    · exact le_foldl_max_of_mem hmem 0
    · apply foldl_max_le lens 0 (Nat.zero_le _)
      intro x hx
      rcases List.mem_cons.mp (hp.mem_iff.mpr hx) with h | h
      · exact le_of_eq h
      · exact (List.sorted_cons.mp hsorted).1 x h

/-! ## Claim C9 -/

/-- Claim C9: `TextToSpeechDataset.create_meta_file` temporarily overwrites
the global `Params.sample_rate` and `Params.num_fft` with its arguments
(this is the state its body runs under), and every completed call restores
both, leaving the whole `Params` state — the two saved fields and all the
others — exactly as it was. -/
theorem createMetaFile_params_frame (hp : ParamsState) (a n : Nat) :
    createMetaFileMidState hp a n =
      ⟨a, n, hp.num_mels, hp.stop_frames_hp, hp.languages, hp.batch_size,
        hp.cache_spectrograms, hp.use_phonemes⟩ ∧
    createMetaFileFinalState hp a n = hp := by
  cases hp
  exact ⟨rfl, rfl⟩

/-! ## Claim C10 -/

/-- Claim C10: `Tacotron.inference` mutates its caller's input — the
in-place `text.unsqueeze_(0)` turns the caller's 1-D symbol-id tensor of
length `T` into a 2-D tensor of shape `[1, T]` (contents unchanged), instead
of leaving the input as it was. -/
theorem tacotron_inference_mutates_input (t : TorchTensor) (T : Nat)
    (h : t.shape = [T]) :
    (tacotronInferenceTextEffect t).shape = [1, T] ∧
    (tacotronInferenceTextEffect t).data = t.data := by
  cases t with
  | mk shape data =>
    simp only [TorchTensor.mk.injEq] at h
    simp [tacotronInferenceTextEffect, unsqueezeInPlace, h]

/-- Witness for claim C10 at the concrete 1-D tensor `[3]` holding
`(1, 2, 3)`. -/
theorem tacotron_inference_mutates_input_witness :
    (tacotronInferenceTextEffect ⟨[3], [1, 2, 3]⟩).shape = [1, 3] ∧
    (tacotronInferenceTextEffect ⟨[3], [1, 2, 3]⟩).data = [1, 2, 3] :=
  tacotron_inference_mutates_input ⟨[3], [1, 2, 3]⟩ 3 rfl

/-! ## Claim C7 -/

/-- Claim C7: `load_spectrogram` fails (assertion) exactly when the loaded
spectrogram's first dimension differs from the configured expectation
(`num_mels` for mel, `num_fft // 2 + 1` for linear); on mismatch nothing is
returned (no silent truncation or padding), and on match it returns the
(optionally normalized) spectrogram with its shape unchanged, given that the
external `audio.normalize_spectrogram` is shape-preserving (its interface
contract). -/
theorem load_spectrogram_dim_check (hp : HParams)
    (normFn : Spectrogram → Spectrogram) (spect : Spectrogram)
    (normalize isMel : Bool)
    (hNorm : ∀ s : Spectrogram, (normFn s).length = s.length ∧
      ∀ (i : Nat) (d : List ℚ), ((normFn s).getD i d).length = (s.getD i d).length) :
    (load_spectrogram hp normFn spect normalize isMel = none ↔
      spect.length ≠ (if isMel then hp.num_mels else hp.num_fft / 2 + 1)) ∧
    (spect.length = (if isMel then hp.num_mels else hp.num_fft / 2 + 1) →
      load_spectrogram hp normFn spect normalize isMel =
        some (if normalize then normFn spect else spect)) ∧
    ((if normalize then normFn spect else spect).length = spect.length) ∧
    (∀ (i : Nat) (d : List ℚ),
      ((if normalize then normFn spect else spect).getD i d).length =
        (spect.getD i d).length) := by
  refine ⟨?_, ?_, ?_, ?_⟩
  · unfold load_spectrogram
    by_cases h : spect.length = (if isMel then hp.num_mels else hp.num_fft / 2 + 1)
    · simp [h]
    · simp [h]
  · intro h
    unfold load_spectrogram
    simp [h]
  · cases normalize with
    | false => simp
    | true => simpa using (hNorm spect).1
  · intro i d
    cases normalize with
    | false => simp
    | true => simpa using (hNorm spect).2 i d

/-- Witness for claim C7: with one configured mel band, a `[1, 1]`
spectrogram is returned as-is (identity normalization) and a `[2, 1]`
spectrogram is rejected. -/
theorem load_spectrogram_dim_check_witness :
    load_spectrogram ⟨1, 4, [], false, false, false, 5⟩ id [[(0 : ℚ)]] true true =
      some [[(0 : ℚ)]] ∧
    load_spectrogram ⟨1, 4, [], false, false, false, 5⟩ id [[(0 : ℚ)], [0]] true true =
      none := by
  constructor
  · have h := (load_spectrogram_dim_check ⟨1, 4, [], false, false, false, 5⟩ id
      [[(0 : ℚ)]] true true (fun s => ⟨rfl, fun i d => rfl⟩)).2.1 (by decide)
    simpa using h
  · exact (load_spectrogram_dim_check ⟨1, 4, [], false, false, false, 5⟩ id
      [[(0 : ℚ)], [0]] true true (fun s => ⟨rfl, fun i d => rfl⟩)).1.mpr (by decide)

/-! ## Claim C8 -/

theorem parseTokens_none_iff (tokens : List PyStr) :
    parseTokens tokens = none ↔ tokens.length < 8 := by
  rcases tokens with _ | ⟨t0, _ | ⟨t1, _ | ⟨t2, _ | ⟨t3, _ | ⟨t4, _ | ⟨t5,
    _ | ⟨t6, _ | ⟨t7, rest⟩⟩⟩⟩⟩⟩⟩⟩ <;>
    simp [parseTokens]

theorem parseTokens_cons (t0 t1 t2 t3 t4 t5 t6 t7 : PyStr) (rest : List PyStr) :
    parseTokens (t0 :: t1 :: t2 :: t3 :: t4 :: t5 :: t6 :: t7 :: rest) =
      some ⟨t0, t1, t2, t3, t4, t5, t6, t7⟩ := rfl

/-- Claim C8: a manifest line that splits into fewer than 8 pipe-delimited
fields makes the dataset construction fail with an `IndexError` while
indexing the split tokens — before the language filter can drop the line —
whereas a line with 8 or more fields parses, with fields past the eighth
silently ignored. -/
theorem manifest_short_line_fails (line : PyStr) :
    (parseManifestLine line = none ↔ (splitPipe line.dropLast).length < 8) ∧
    (∀ t0 t1 t2 t3 t4 t5 t6 t7 rest,
      splitPipe line.dropLast = t0 :: t1 :: t2 :: t3 :: t4 :: t5 :: t6 :: t7 :: rest →
      parseManifestLine line = some ⟨t0, t1, t2, t3, t4, t5, t6, t7⟩) ∧
    (∀ languages : List PyStr, parseManifestLine line = none →
      readManifest languages [line] = none) := by
  refine ⟨?_, ?_, ?_⟩
  · exact parseTokens_none_iff (splitPipe line.dropLast)
  · intro t0 t1 t2 t3 t4 t5 t6 t7 rest htok
    unfold parseManifestLine
    rw [htok]
    exact parseTokens_cons t0 t1 t2 t3 t4 t5 t6 t7 rest
  · intro languages hnone
    simp [readManifest, List.foldlM, hnone]

/-- Witness for claim C8: the 3-field line `a|b|c` aborts the whole read
(even with an empty accepted-language list the failure precedes the filter),
and a 9-field line parses with the ninth field dropped. -/
theorem manifest_short_line_fails_witness :
    parseManifestLine "a|b|c\n".toList = none ∧
    readManifest [] ["a|b|c\n".toList] = none ∧
    parseManifestLine "0|s|en|a|m|l|t|p|x\n".toList =
      some ⟨"0".toList, "s".toList, "en".toList, "a".toList, "m".toList,
        "l".toList, "t".toList, "p".toList⟩ := by
  refine ⟨?_, ?_, ?_⟩
  · exact (manifest_short_line_fails "a|b|c\n".toList).1.mpr (by decide)
  · exact (manifest_short_line_fails "a|b|c\n".toList).2.2 []
      ((manifest_short_line_fails "a|b|c\n".toList).1.mpr (by decide))
  · exact (manifest_short_line_fails "0|s|en|a|m|l|t|p|x\n".toList).2.1
      "0".toList "s".toList "en".toList "a".toList "m".toList "l".toList
      "t".toList "p".toList ["x".toList] (by decide)

/-! ## Claim C2 -/

theorem decodeLoop_false_lengths {S α β : Type}
    (stepF : Nat → S → S × α × ℚ × β) (grace : Int) :
    ∀ (rem i : Nat) (s : S) (sf : Int) (spec : List α) (stops : List ℚ)
      (aligns : List β),
      (decodeLoop stepF false grace rem i s sf spec stops aligns).spectrogram.length
          = spec.length + rem ∧
      (decodeLoop stepF false grace rem i s sf spec stops aligns).stopTokens.length
          = stops.length + rem ∧
      (decodeLoop stepF false grace rem i s sf spec stops aligns).alignments.length
          = aligns.length + rem := by
  intro rem
  induction rem with
  | zero =>
    intro i s sf spec stops aligns
    simp [decodeLoop]
  | succ n ih =>
    intro i s sf spec stops aligns
    have h := ih (i + 1) (stepF i s).1 sf (spec ++ [(stepF i s).2.1])
      (stops ++ [(stepF i s).2.2.1]) (aligns ++ [(stepF i s).2.2.2])
    simp only [decodeLoop, Bool.false_and, if_false, Bool.false_eq_true,
      ite_false] at h ⊢
    simp only [List.length_append, List.length_singleton] at h
    omega

/-- Claim C2: a training call of the decoder (`Decoder._decode` with a
target present), for any teacher-forcing behaviour and any per-step
computation, produces exactly the target's frame count of steps: the
returned spectrogram, stop-logit and alignment outputs all have exactly
`target.size(2)` entries; the stop-token termination branch is guarded by
`inference` and can never shorten a training run. -/
theorem decoder_training_full_length {S α β : Type}
    (stepF : Nat → S → S × α × ℚ × β) (s0 : S) (maxOutputLength : Nat)
    (grace : Int) (targetFrames : Nat) :
    (Decoder_decode stepF s0 maxOutputLength grace (some targetFrames)).spectrogram.length
        = targetFrames ∧
    (Decoder_decode stepF s0 maxOutputLength grace (some targetFrames)).stopTokens.length
        = targetFrames ∧
    (Decoder_decode stepF s0 maxOutputLength grace (some targetFrames)).alignments.length
        = targetFrames := by
  have h := decodeLoop_false_lengths stepF grace targetFrames 0 s0 (-1) [] [] []
  simpa [Decoder_decode] using h

/-! ## Claim C3 -/

/-- Behaviour of the inference decoding loop when every stop signal from
step `j0` on fires and none before: starting at step `i` with the loop
invariant on the countdown `sf`, the run appends `min (j0 + g + 1 - i) rem`
further outputs. -/
theorem decodeLoop_stop_countdown {S α β : Type}
    (stepF : Nat → S → S × α × ℚ × β) (s0 : S) (g j0 : Nat) (hg : 1 ≤ g)
    (hbefore : ∀ j, j < j0 → traceStop stepF s0 j = false)
    (hafter : ∀ j, j0 ≤ j → traceStop stepF s0 j = true) :
    ∀ (rem i : Nat) (sf : Int) (spec : List α) (stops : List ℚ)
      (aligns : List β),
      ((sf = -1 ∧ i ≤ j0) ∨
        (j0 < i ∧ i ≤ j0 + g ∧ sf = (g : Int) - ((i - (j0 + 1) : Nat) : Int))) →
      (decodeLoop stepF true (g : Int) rem i (decodeTrace stepF s0 i) sf spec stops
          aligns).spectrogram.length = spec.length + min (j0 + g + 1 - i) rem ∧
      (decodeLoop stepF true (g : Int) rem i (decodeTrace stepF s0 i) sf spec stops
          aligns).stopTokens.length = stops.length + min (j0 + g + 1 - i) rem ∧
      (decodeLoop stepF true (g : Int) rem i (decodeTrace stepF s0 i) sf spec stops
          aligns).alignments.length = aligns.length + min (j0 + g + 1 - i) rem := by
  intro rem
  induction rem with
  | zero =>
    intro i sf spec stops aligns _
    simp [decodeLoop]
  | succ n ih =>
    intro i sf spec stops aligns hinv
    rcases Nat.lt_or_ge i j0 with hlt | hge
    · -- before the first stop signal: no signal at step i
      have hsf : sf = -1 := by
        rcases hinv with ⟨h1, _⟩ | ⟨h1, _, _⟩
        · exact h1
        · omega
      have h := ih (i + 1) sf (spec ++ [(stepF i (decodeTrace stepF s0 i)).2.1])
        (stops ++ [(stepF i (decodeTrace stepF s0 i)).2.2.1])
        (aligns ++ [(stepF i (decodeTrace stepF s0 i)).2.2.2])
        (Or.inl ⟨hsf, by omega⟩)
      rw [show decodeTrace stepF s0 (i + 1) =
        (stepF i (decodeTrace stepF s0 i)).1 from rfl] at h
      simp only [decodeLoop, Bool.true_and,
        show sigmoidGeHalf ((stepF i (decodeTrace stepF s0 i)).2.2.1) =
          traceStop stepF s0 i from rfl,
        hbefore i hlt, Bool.false_eq_true, if_false]
      simp only [List.length_append, List.length_singleton] at h
      obtain ⟨h1, h2, h3⟩ := h
      refine ⟨?_, ?_, ?_⟩
      · rw [h1]; omega
      · rw [h2]; omega
      · rw [h3]; omega
    · -- from step j0 on every signal fires
      simp only [decodeLoop, Bool.true_and,
        show sigmoidGeHalf ((stepF i (decodeTrace stepF s0 i)).2.2.1) =
          traceStop stepF s0 i from rfl,
        hafter i hge, eq_self_iff_true, if_true]
      rcases hinv with ⟨hsf, hile⟩ | ⟨hgt, hle, hsf⟩
      · -- i = j0: the countdown is armed and the loop continues
        have hi : i = j0 := le_antisymm hile hge
        rw [if_pos hsf]
        have h := ih (i + 1) ((g : Nat) : Int)
          (spec ++ [(stepF i (decodeTrace stepF s0 i)).2.1])
          (stops ++ [(stepF i (decodeTrace stepF s0 i)).2.2.1])
          (aligns ++ [(stepF i (decodeTrace stepF s0 i)).2.2.2])
          (Or.inr ⟨by omega, by omega, by omega⟩)
        rw [show decodeTrace stepF s0 (i + 1) =
          (stepF i (decodeTrace stepF s0 i)).1 from rfl] at h
        simp only [List.length_append, List.length_singleton] at h
        obtain ⟨h1, h2, h3⟩ := h
        refine ⟨?_, ?_, ?_⟩
        · rw [h1]; omega
        · rw [h2]; omega
        · rw [h3]; omega
      · -- j0 < i ≤ j0 + g: the countdown is live and positive
        have hsfne : ¬ sf = -1 := by omega
        rw [if_neg hsfne]
        by_cases hend : i = j0 + g
        · -- the countdown reaches zero: truncated return
          have hz : sf - 1 = 0 := by omega
          rw [if_pos hz]
          refine ⟨?_, ?_, ?_⟩ <;> simp <;> omega
        · -- the countdown decrements and the loop continues
          have hnz : ¬ sf - 1 = 0 := by omega
          rw [if_neg hnz]
          have h := ih (i + 1) (sf - 1)
            (spec ++ [(stepF i (decodeTrace stepF s0 i)).2.1])
            (stops ++ [(stepF i (decodeTrace stepF s0 i)).2.2.1])
            (aligns ++ [(stepF i (decodeTrace stepF s0 i)).2.2.2])
            (Or.inr ⟨by omega, by omega, by omega⟩)
          rw [show decodeTrace stepF s0 (i + 1) =
            (stepF i (decodeTrace stepF s0 i)).1 from rfl] at h
          simp only [List.length_append, List.length_singleton] at h
          obtain ⟨h1, h2, h3⟩ := h
          refine ⟨?_, ?_, ?_⟩
          · rw [h1]; omega
          · rw [h2]; omega
          · rw [h3]; omega

/-- Claim C3 (amended): during inference, if the sigmoid of the stop logit
first exceeds 0.5 at step `j0` **and keeps exceeding it at every later
step**, and `hp.stop_frames ≥ 1`, then generation stops after exactly
`hp.stop_frames` further steps — `min (j0 + stop_frames + 1) max_frames`
steps in total — and the returned spectrogram, stop-logit and alignment
outputs are all truncated to that common step count.  (As stated, the claim
is false: the countdown only decrements on steps whose own stop signal
fires, so after a transient stop signal generation can continue past
`grace_frames + 1` additional steps; and with `hp.stop_frames = 0` early
stopping never triggers.) -/
theorem decoder_inference_stop_grace {S α β : Type}
    (stepF : Nat → S → S × α × ℚ × β) (s0 : S) (maxOutputLength : Nat)
    (g j0 : Nat) (hg : 1 ≤ g)
    (hbefore : ∀ j, j < j0 → traceStop stepF s0 j = false)
    (hafter : ∀ j, j0 ≤ j → traceStop stepF s0 j = true) :
    (Decoder_decode stepF s0 maxOutputLength ((g : Nat) : Int) none).spectrogram.length
        = min (j0 + g + 1) maxOutputLength ∧
    (Decoder_decode stepF s0 maxOutputLength ((g : Nat) : Int) none).stopTokens.length
        = min (j0 + g + 1) maxOutputLength ∧
    (Decoder_decode stepF s0 maxOutputLength ((g : Nat) : Int) none).alignments.length
        = min (j0 + g + 1) maxOutputLength := by
  have h := decodeLoop_stop_countdown stepF s0 g j0 hg hbefore hafter
    maxOutputLength 0 (-1) [] [] [] (Or.inl ⟨rfl, Nat.zero_le j0⟩)
  simpa [Decoder_decode, decodeTrace] using h

/-- Witness for claim C3 (amended): a decoder whose stop logit is `1` at
every step (`j0 = 0`), with 2 grace frames and a 9-frame cap, produces
exactly `min (0 + 2 + 1) 9 = 3` steps. -/
theorem decoder_inference_stop_grace_witness :
    (Decoder_decode (fun _ (_ : Unit) => ((), (0 : ℚ), (1 : ℚ), (0 : ℚ))) () 9
        (((2 : Nat) : Int)) none).spectrogram.length = min (0 + 2 + 1) 9 ∧
    (Decoder_decode (fun _ (_ : Unit) => ((), (0 : ℚ), (1 : ℚ), (0 : ℚ))) () 9
        (((2 : Nat) : Int)) none).stopTokens.length = min (0 + 2 + 1) 9 ∧
    (Decoder_decode (fun _ (_ : Unit) => ((), (0 : ℚ), (1 : ℚ), (0 : ℚ))) () 9
        (((2 : Nat) : Int)) none).alignments.length = min (0 + 2 + 1) 9 :=
  decoder_inference_stop_grace (fun _ (_ : Unit) => ((), (0 : ℚ), (1 : ℚ), (0 : ℚ)))
    () 9 2 0 (by decide) (fun j hj => absurd hj (Nat.not_lt_zero j))
    (fun _ _ => rfl)

/-- Counterexample to claim C3 as stated: with the default
`hp.stop_frames = 5` and `max_frames = 20`, a run whose stop logit passes
the sigmoid threshold at step 0 only (a transient stop prediction) keeps
generating for all 20 steps, even though stopping "within `grace_frames + 1`
additional decode steps" — which comes well before the `max_frames` cap —
would require at most 7 produced steps. -/
theorem decoder_inference_stop_counterexample :
    traceStop (fun _ (s : Nat) => (s + 1, (0 : ℚ),
      if s = 0 then (1 : ℚ) else -1, (0 : ℚ))) 0 0 = true ∧
    0 + (5 + 1) + 1 ≤ 20 ∧
    (Decoder_decode (fun _ (s : Nat) => (s + 1, (0 : ℚ),
      if s = 0 then (1 : ℚ) else -1, (0 : ℚ))) 0 20 5 none).spectrogram.length = 20 ∧
    ¬ ((Decoder_decode (fun _ (s : Nat) => (s + 1, (0 : ℚ),
      if s = 0 then (1 : ℚ) else -1, (0 : ℚ))) 0 20 5 none).spectrogram.length
        ≤ 0 + (5 + 1) + 1) := by
  refine ⟨by decide, by decide, by decide, by decide⟩

/-! ## Collator component equations -/

theorem collate_sorted_lengths_eq (hp : HParams) (batch : List BatchItem)
    (sorted_idxs : List Nat) :
    (collate hp batch sorted_idxs).sorted_utterance_lengths =
      sorted_idxs.map
        (fun idx => (batch.map fun item => item.utter.length).getD idx 0) := rfl

theorem collate_utterances_eq (hp : HParams) (batch : List BatchItem)
    (sorted_idxs : List Nat) :
    (collate hp batch sorted_idxs).utterances =
      sorted_idxs.map (fun idx =>
        padRow ((sorted_idxs.map
          (fun idx2 => (batch.map fun item => item.utter.length).getD idx2 0)).headD 0)
          0 (batch.getD idx default).utter) := rfl

theorem collate_mel_eq (hp : HParams) (batch : List BatchItem)
    (sorted_idxs : List Nat) :
    (collate hp batch sorted_idxs).mel_spectrograms =
      sorted_idxs.map (fun idx =>
        (List.range hp.num_mels).map
          (fun r => padRow ((batch.map frameCount).foldl max 0) 0
            ((batch.getD idx default).mel.getD r []))) := rfl

theorem collate_stop_eq (hp : HParams) (batch : List BatchItem)
    (sorted_idxs : List Nat) :
    (collate hp batch sorted_idxs).stop_tokens =
      sorted_idxs.map (fun idx =>
        stopRow ((batch.map frameCount).foldl max 0)
          (frameCount (batch.getD idx default))) := rfl

theorem padRow_length {width : Nat} {u : List α} (zero : α)
    (h : u.length ≤ width) : (padRow width zero u).length = width := by
  simp [padRow]
  omega

theorem padRow_getD_zero (zero : α) {width j : Nat} {u : List α}
    (h1 : u.length ≤ j) (h2 : j < width) (d : α) :
    (padRow width zero u).getD j d = zero := by
  have hj : j < (u ++ List.replicate (width - u.length) zero).length := by
    simp
    omega
  unfold padRow
  rw [List.getD_eq_getElem _ d hj, List.getElem_append_right h1]
  simp

/-! ## Claim C1 -/

/-- Claim C1: for every nonempty batch of well-formed examples and every
index order `torch.sort` may return, the collated symbol tensor has shape
`[batch_size, max utterance length]` with rows ordered by descending true
utterance length, every position at or beyond a row's true utterance length
is exactly zero, and the mel tensor has shape
`[batch_size, num_mels, max frame count]`. -/
theorem collate_c1 (hp : HParams) (batch : List BatchItem)
    (sorted_idxs : List Nat) (hne : batch ≠ [])
    (hvalid : validSortedIdxs (batch.map fun item => item.utter.length) sorted_idxs)
    (hrect : ∀ item ∈ batch, item.mel.length = hp.num_mels ∧
      ∀ row ∈ item.mel, row.length = frameCount item) :
    List.Sorted (· ≥ ·) (collate hp batch sorted_idxs).sorted_utterance_lengths ∧
    (collate hp batch sorted_idxs).utterances.length = batch.length ∧
    (∀ row ∈ (collate hp batch sorted_idxs).utterances,
      row.length = (batch.map fun item => item.utter.length).foldl max 0) ∧
    (∀ i, i < batch.length →
      (collate hp batch sorted_idxs).utterances.getD i [] =
        padRow ((batch.map fun item => item.utter.length).foldl max 0) 0
          (batch.getD (sorted_idxs.getD i 0) default).utter ∧
      (collate hp batch sorted_idxs).sorted_utterance_lengths.getD i 0 =
        (batch.getD (sorted_idxs.getD i 0) default).utter.length) ∧
    (∀ i, i < batch.length → ∀ j,
      (batch.getD (sorted_idxs.getD i 0) default).utter.length ≤ j →
      j < (batch.map fun item => item.utter.length).foldl max 0 →
      ((collate hp batch sorted_idxs).utterances.getD i []).getD j 1 = 0) ∧
    (collate hp batch sorted_idxs).mel_spectrograms.length = batch.length ∧
    (∀ m ∈ (collate hp batch sorted_idxs).mel_spectrograms,
      m.length = hp.num_mels ∧
      ∀ row ∈ m, row.length = (batch.map frameCount).foldl max 0) := by
  obtain ⟨hperm, hsorted⟩ := hvalid
  have hsi_len : sorted_idxs.length = batch.length := by
    have h := hperm.length_eq
    simpa [List.length_range, List.length_map] using h
  have hlne : (batch.map fun item => item.utter.length) ≠ [] := by
    simpa using hne
  have hW : (sorted_idxs.map
      (fun idx => (batch.map fun item => item.utter.length).getD idx 0)).headD 0 =
      (batch.map fun item => item.utter.length).foldl max 0 :=
    headD_sorted_eq_foldl_max hlne hperm hsorted
  have hulen : ∀ idx, idx < batch.length →
      (batch.getD idx default).utter.length ≤
        (batch.map fun item => item.utter.length).foldl max 0 := by
    intro idx hidx
    have h1 : (batch.map fun item => item.utter.length).getD idx 0 =
        (batch.getD idx default).utter.length :=
      getD_map_lt (fun item => item.utter.length) batch hidx 0 default
    have h2 : (batch.map fun item => item.utter.length).getD idx 0 ∈
        batch.map fun item => item.utter.length :=
      getD_mem' (by simpa [List.length_map] using hidx) 0
    rw [h1] at h2
    exact le_foldl_max_of_mem h2 0
  refine ⟨?_, ?_, ?_, ?_, ?_, ?_, ?_⟩
  · rw [collate_sorted_lengths_eq]
    exact hsorted
  · rw [collate_utterances_eq]
    simp [hsi_len]
  · rw [collate_utterances_eq]
    intro row hrow
    obtain ⟨idx, hidx, rfl⟩ := List.mem_map.mp hrow
    have hidx' : idx < batch.length := by
      have h := List.mem_range.mp (hperm.mem_iff.mp hidx)
      simpa [List.length_map] using h
    rw [hW]
    exact padRow_length 0 (hulen idx hidx')
  · intro i hi
    have hi' : i < sorted_idxs.length := by omega
    constructor
    · rw [collate_utterances_eq, getD_map_lt _ sorted_idxs hi' [] 0, hW]
    · rw [collate_sorted_lengths_eq, getD_map_lt _ sorted_idxs hi' 0 0]
      have hidx : sorted_idxs.getD i 0 < batch.length := by
        have h := sortedIdxs_getD_lt hperm hi'
        simpa [List.length_map] using h
      exact getD_map_lt (fun item => item.utter.length) batch hidx 0 default
  · intro i hi j hj1 hj2
    have hi' : i < sorted_idxs.length := by omega
    rw [collate_utterances_eq, getD_map_lt _ sorted_idxs hi' [] 0, hW]
    exact padRow_getD_zero 0 hj1 hj2 1
  · rw [collate_mel_eq]
    simp [hsi_len]
  · rw [collate_mel_eq]
    intro m hm
    obtain ⟨idx, hidx, rfl⟩ := List.mem_map.mp hm
    have hidx' : idx < batch.length := by
      have h := List.mem_range.mp (hperm.mem_iff.mp hidx)
      simpa [List.length_map] using h
    have hitem := hrect (batch.getD idx default) (getD_mem' hidx' default)
    constructor
    · simp
    · intro row hrow
      obtain ⟨r, hr, rfl⟩ := List.mem_map.mp hrow
      have hr' : r < hp.num_mels := List.mem_range.mp hr
      have hrowmem : (batch.getD idx default).mel.getD r [] ∈
          (batch.getD idx default).mel :=
        getD_mem' (by rw [hitem.1]; exact hr') []
      have hrowlen : ((batch.getD idx default).mel.getD r []).length =
          frameCount (batch.getD idx default) :=
        hitem.2 _ hrowmem
      have hfle : frameCount (batch.getD idx default) ≤
          (batch.map frameCount).foldl max 0 := by
        have h1 : (batch.map frameCount).getD idx 0 =
            frameCount (batch.getD idx default) :=
          getD_map_lt frameCount batch hidx' 0 default
        have h2 : (batch.map frameCount).getD idx 0 ∈ batch.map frameCount :=
          getD_mem' (by simpa [List.length_map] using hidx') 0
        rw [h1] at h2
        exact le_foldl_max_of_mem h2 0
      exact padRow_length 0 (by omega)

/-- Witness for claim C1 at a concrete two-item batch (utterance lengths
2 and 1, frame counts 1 and 3) with the identity sort permutation. -/
theorem collate_c1_witness :
    List.Sorted (· ≥ ·) (collate hpEx batchEx [0, 1]).sorted_utterance_lengths ∧
    (collate hpEx batchEx [0, 1]).utterances.length = 2 ∧
    (collate hpEx batchEx [0, 1]).utterances = [[1, 2], [3, 0]] := by
  have h := collate_c1 hpEx batchEx [0, 1] (by decide) ⟨by decide, by decide⟩
    (by decide)
  exact ⟨h.1, by simpa using h.2.1, by decide⟩

/-! ## Claim C4 -/

/-- Counterexample to claim C4 as stated: in a batch whose second item has a
zero-frame mel spectrogram, the built stop-token row for that item is
`[0, 1]` — the Python slice `stop_tokens[i, -1:] = 1` addresses only the
last column — whereas the claim (`1` at every index `≥ frame_count - 1 = -1`)
demands `1` already at index 0. -/
theorem collate_stop_target_counterexample :
    validSortedIdxs (batchZeroFrames.map fun item => item.utter.length) [0, 1] ∧
    frameCount (batchZeroFrames.getD ([0, 1].getD 1 0) default) = 0 ∧
    (collate hpOneMel batchZeroFrames [0, 1]).stop_tokens.getD 1 [] = [0, 1] ∧
    ¬ (((collate hpOneMel batchZeroFrames [0, 1]).stop_tokens.getD 1 []).getD 0 2 =
        if ((frameCount (batchZeroFrames.getD ([0, 1].getD 1 0) default) : Int) - 1
            ≤ ((0 : Nat) : Int)) then (1 : ℚ) else 0) := by
  refine ⟨⟨by decide, by decide⟩, by decide, by decide, by decide⟩

/-- Claim C4 (amended): for every batch and every valid sort permutation,
each stop-token row whose true frame count `k` is at least 1 is `0` at
every index `< k - 1` and `1` at every index `≥ k - 1` (stated as the
row's value at every index `j` below the frame-padding width).  The
amendment restricts the claim to rows with `k ≥ 1`: for a zero-frame row
the code sets only the last column to 1. -/
theorem collate_stop_target (hp : HParams) (batch : List BatchItem)
    (sorted_idxs : List Nat)
    (hvalid : validSortedIdxs (batch.map fun item => item.utter.length) sorted_idxs)
    (i j : Nat) (hi : i < batch.length)
    (hj : j < (batch.map frameCount).foldl max 0)
    (hk : 1 ≤ frameCount (batch.getD (sorted_idxs.getD i 0) default)) :
    ((collate hp batch sorted_idxs).stop_tokens.getD i []).getD j 2 =
      if ((frameCount (batch.getD (sorted_idxs.getD i 0) default) : Int) - 1
          ≤ (j : Int)) then (1 : ℚ) else 0 := by
  obtain ⟨hperm, _⟩ := hvalid
  have hsi_len : sorted_idxs.length = batch.length := by
    have h := hperm.length_eq
    simpa [List.length_range, List.length_map] using h
  have hi' : i < sorted_idxs.length := by omega
  have hidx : sorted_idxs.getD i 0 < batch.length := by
    have h := sortedIdxs_getD_lt hperm hi'
    simpa [List.length_map] using h
  have hkM : frameCount (batch.getD (sorted_idxs.getD i 0) default) ≤
      (batch.map frameCount).foldl max 0 := by
    have h1 : (batch.map frameCount).getD (sorted_idxs.getD i 0) 0 =
        frameCount (batch.getD (sorted_idxs.getD i 0) default) :=
      getD_map_lt frameCount batch hidx 0 default
    have h2 : (batch.map frameCount).getD (sorted_idxs.getD i 0) 0 ∈
        batch.map frameCount :=
      getD_mem' (by simpa [List.length_map] using hidx) 0
    rw [h1] at h2
    exact le_foldl_max_of_mem h2 0
  rw [collate_stop_eq, getD_map_lt _ sorted_idxs hi' [] 0]
  unfold stopRow
  rw [getD_map_lt _ (List.range ((batch.map frameCount).foldl max 0))
    (by simpa using hj) 2 0]
  rw [show (List.range ((batch.map frameCount).foldl max 0)).getD j 0 = j from by
    rw [List.getD_eq_getElem _ 0 (by simpa using hj)]
    exact List.getElem_range j _]
  have hps : pySliceStart
      ((frameCount (batch.getD (sorted_idxs.getD i 0) default) : Int) - 1)
      ((batch.map frameCount).foldl max 0) =
      frameCount (batch.getD (sorted_idxs.getD i 0) default) - 1 := by
    unfold pySliceStart
    rw [if_pos (by omega)]
    omega
  rw [hps]
  by_cases hc : frameCount (batch.getD (sorted_idxs.getD i 0) default) - 1 ≤ j
  · rw [if_pos hc, if_pos (by omega)]
  · rw [if_neg hc, if_neg (by omega)]

/-- Witness for claim C4 (amended) at the concrete batch `batchEx`
(frame counts 1 and 3), first row, index 0. -/
theorem collate_stop_target_witness :
    ((collate hpEx batchEx [0, 1]).stop_tokens.getD 0 []).getD 0 2 =
      if ((frameCount (batchEx.getD ([0, 1].getD 0 0) default) : Int) - 1
          ≤ ((0 : Nat) : Int)) then (1 : ℚ) else 0 :=
  collate_stop_target hpEx batchEx [0, 1] ⟨by decide, by decide⟩ 0 0
    (by decide) (by decide) (by decide)

/-! ## Claim C6 -/

/-- Counterexample to claim C6 as stated: `torch.sort` is called without
`stable=True`, so for a batch of two equal-length utterances the index order
`[1, 0]` satisfies everything torch guarantees, yet it places the later
input item in the earlier row. -/
theorem collate_tie_counterexample :
    validSortedIdxs (batchTie.map fun item => item.utter.length) [1, 0] ∧
    (batchTie.getD 0 default).utter.length = (batchTie.getD 1 default).utter.length ∧
    (collate hpOneMel batchTie [1, 0]).utterances = [[9], [7]] ∧
    (collate hpOneMel batchTie [1, 0]).utterances.getD 0 [] ≠
      padRow 1 0 (batchTie.getD 0 default).utter := by
  refine ⟨⟨by decide, by decide⟩, by decide, by decide, by decide⟩

/-- Claim C6 (amended): the collator's rows are the padded batch items
rearranged by the sort permutation — as a multiset they are exactly the
padded items, and the true utterance lengths along the rows are descending —
but because `torch.sort` is invoked with the default `stable=False`, the
relative order of equal-length examples is unspecified, and any
length-descending permutation is a possible outcome. -/
theorem collate_rows_perm (hp : HParams) (batch : List BatchItem)
    (sorted_idxs : List Nat)
    (hvalid : validSortedIdxs (batch.map fun item => item.utter.length) sorted_idxs) :
    List.Sorted (· ≥ ·) (collate hp batch sorted_idxs).sorted_utterance_lengths ∧
    List.Perm (collate hp batch sorted_idxs).utterances
      (batch.map fun item =>
        padRow ((collate hp batch sorted_idxs).sorted_utterance_lengths.headD 0)
          0 item.utter) := by
  obtain ⟨hperm, hsorted⟩ := hvalid
  constructor
  · rw [collate_sorted_lengths_eq]
    exact hsorted
  · rw [collate_utterances_eq, collate_sorted_lengths_eq]
    have h1 := hperm.map (fun idx =>
      padRow ((sorted_idxs.map (fun idx2 =>
        (batch.map fun item => item.utter.length).getD idx2 0)).headD 0)
        0 (batch.getD idx default).utter)
    rw [List.length_map] at h1
    have h2 : (List.range batch.length).map (fun idx =>
        padRow ((sorted_idxs.map (fun idx2 =>
          (batch.map fun item => item.utter.length).getD idx2 0)).headD 0)
          0 (batch.getD idx default).utter) =
        batch.map (fun item =>
          padRow ((sorted_idxs.map (fun idx2 =>
            (batch.map fun item => item.utter.length).getD idx2 0)).headD 0)
            0 item.utter) :=
      map_getD_range_comp batch default (fun item =>
        padRow ((sorted_idxs.map (fun idx2 =>
          (batch.map fun item2 => item2.utter.length).getD idx2 0)).headD 0)
          0 item.utter)
    rw [h2] at h1
    exact h1

/-- Witness for claim C6 (amended) at the concrete tied batch with the
reversed permutation. -/
theorem collate_rows_perm_witness :
    List.Sorted (· ≥ ·) (collate hpOneMel batchTie [1, 0]).sorted_utterance_lengths ∧
    List.Perm (collate hpOneMel batchTie [1, 0]).utterances
      (batchTie.map fun item =>
        padRow ((collate hpOneMel batchTie [1, 0]).sorted_utterance_lengths.headD 0)
          0 item.utter) :=
  collate_rows_perm hpOneMel batchTie [1, 0] ⟨by decide, by decide⟩

/-! ## Claim C5 -/

/-- Counterexample to claim C5 as stated: the source derives speaker ids
from `list(set(unique_speakers))`, whose order is a hash-dependent property
of the Python runtime, not the order of first occurrence.  For the manifest
whose speakers appear in the order B, A, the enumeration `[A, B]` is a
possible `set` iteration order and yields ids `[1, 0]`, not the
first-occurrence ids `[0, 1]`; and the equally possible enumeration `[B, A]`
yields different ids, so two constructions over the same manifest need not
agree. -/
theorem speaker_ids_counterexample :
    readManifest ["en".toList] manifestLinesBA = some recsBA ∧
    isSetEnum ["A".toList, "B".toList] recsBA ∧
    isSetEnum ["B".toList, "A".toList] recsBA ∧
    assignSpeakerIds ["A".toList, "B".toList] recsBA = [1, 0] ∧
    specFirstOccurrenceIds recsBA = [0, 1] ∧
    assignSpeakerIds ["A".toList, "B".toList] recsBA ≠
      specFirstOccurrenceIds recsBA ∧
    assignSpeakerIds ["A".toList, "B".toList] recsBA ≠
      assignSpeakerIds ["B".toList, "A".toList] recsBA := by
  refine ⟨by decide, ⟨by decide, by decide, by decide⟩,
    ⟨by decide, by decide, by decide⟩, by decide, by decide, by decide, by decide⟩

/-- Claim C5 (amended): speaker ids are indices into a duplicate-free
enumeration of the set of speaker names of the accepted records (the
iteration order of a Python `set`, which is unspecified and need not be the
first-occurrence order); for any one such enumeration the assignment is
consistent — every id is in range, and two records receive the same id
exactly when they name the same speaker. -/
theorem indexOf_lt_length_of_mem {α : Type} [BEq α] [LawfulBEq α] {a : α} :
    ∀ {l : List α}, a ∈ l → List.indexOf a l < l.length := by
  intro l
  induction l with
  | nil => intro h; cases h
  | cons x xs ih =>
    intro h
    rw [List.indexOf_cons]
    by_cases hx : (x == a) = true
    · simp [hx]
    · have hmem : a ∈ xs := by
        rcases List.mem_cons.mp h with heq | hmem
        · exact absurd (beq_iff_eq.mpr heq.symm) hx
        · exact hmem
      simp only [hx, cond_false, List.length_cons]
      exact Nat.succ_lt_succ (ih hmem)

theorem indexOf_inj_of_mem {α : Type} [BEq α] [LawfulBEq α] {a b : α} :
    ∀ {l : List α}, a ∈ l → b ∈ l → List.indexOf a l = List.indexOf b l →
      a = b := by
  intro l
  induction l with
  | nil => intro ha; cases ha
  | cons x xs ih =>
    intro ha hb heq
    rw [List.indexOf_cons, List.indexOf_cons] at heq
    by_cases hxa : (x == a) = true <;> by_cases hxb : (x == b) = true
    · exact (eq_of_beq hxa).symm.trans (eq_of_beq hxb)
    · simp only [hxa, hxb, cond_true, cond_false] at heq
      omega
    · simp only [hxa, hxb, cond_true, cond_false] at heq
      omega
    · have hma : a ∈ xs := by
        rcases List.mem_cons.mp ha with h | h
        · exact absurd (beq_iff_eq.mpr h.symm) hxa
        · exact h
      have hmb : b ∈ xs := by
        rcases List.mem_cons.mp hb with h | h
        · exact absurd (beq_iff_eq.mpr h.symm) hxb
        · exact h
      simp only [hxa, hxb, cond_false] at heq
      exact ih hma hmb (by omega)

theorem assignSpeakerIds_consistent (records : List ManifestRecord)
    (enum : List PyStr) (h : isSetEnum enum records) :
    (∀ r ∈ records, enum.indexOf r.speaker < enum.length) ∧
    (∀ r1 ∈ records, ∀ r2 ∈ records,
      (enum.indexOf r1.speaker = enum.indexOf r2.speaker ↔
        r1.speaker = r2.speaker)) := by
  have hmem : ∀ r ∈ records, r.speaker ∈ enum := by
    intro r hr
    exact h.2.2 r.speaker
      (List.mem_map_of_mem (fun rec => rec.speaker) hr)
  constructor
  · intro r hr
    exact indexOf_lt_length_of_mem (hmem r hr)
  · intro r1 h1 r2 h2
    constructor
    · intro heq
      exact indexOf_inj_of_mem (hmem r1 h1) (hmem r2 h2) heq
    · intro heq
      rw [heq]

/-- Witness for claim C5 (amended) at the concrete records `recsBA` with
the enumeration `[A, B]`. -/
theorem assignSpeakerIds_consistent_witness :
    (∀ r ∈ recsBA, List.indexOf r.speaker ["A".toList, "B".toList] <
      (["A".toList, "B".toList] : List PyStr).length) ∧
    (∀ r1 ∈ recsBA, ∀ r2 ∈ recsBA,
      (List.indexOf r1.speaker ["A".toList, "B".toList] =
        List.indexOf r2.speaker ["A".toList, "B".toList] ↔
        r1.speaker = r2.speaker)) :=
  assignSpeakerIds_consistent recsBA ["A".toList, "B".toList]
    ⟨by decide, by decide, by decide⟩

end TTS
